import Mathlib

/-!
Shallow embedding of `chainercv/links/faster_rcnn/utils/proposal_creator.py`
(class `ProposalCreator` and its `__call__`).

Conventions of the embedding:
* numpy float arrays are modelled over `ℚ`;
* a 4-D array of shape `(n, c, h, w)` is a `Map4`: shape fields plus a total
  index function (numpy slicing and transposition are index remappings);
* the source is Python 2, so `rpn_cls_prob.shape[1] / 2` is integer floor
  division, modelled by `Nat` division;
* `numpy.argsort` followed by `[::-1]` and double fancy indexing of
  `proposal` and `score` by the same index array is modelled by sorting the
  list of (box, score) pairs in descending score order (`sortDescBy`);
  numpy's sort is unstable so the order among equal scores is not part of
  the source's contract, and no property proved below depends on it;
* `bbox_regression_target_inv` and `non_maximum_suppression` are imported
  by the source but live outside it; they are modelled from the spec
  (see their doc comments).
-/

/-- An axis-aligned box `(x1, y1, x2, y2)`, one row of a numpy `(R, 4)` array. -/
structure Box where
  x1 : ℚ
  y1 : ℚ
  x2 : ℚ
  y2 : ℚ
deriving DecidableEq, Inhabited

/-- A per-anchor adjustment vector `(dx, dy, dw, dh)`, one row of the reshaped
`rpn_bbox_pred`. -/
structure BoxDelta where
  dx : ℚ
  dy : ℚ
  dw : ℚ
  dh : ℚ
deriving DecidableEq, Inhabited

/-- A 4-D numpy array of shape `(n, c, h, w)` over `ℚ`: shape plus a total
index function. Only in-range indices are ever read by the embedding. -/
structure Map4 where
  n : ℕ
  c : ℕ
  h : ℕ
  w : ℕ
  val : ℕ → ℕ → ℕ → ℕ → ℚ

/-- The channel slice `m[:, k:, :, :]`. -/
def sliceC (k : ℕ) (m : Map4) : Map4 :=
  ⟨m.n, m.c - k, m.h, m.w, fun i ch y x => m.val i (k + ch) y x⟩

/-- `m.transpose((0, 2, 3, 1)).reshape(-1)`: flatten in `(n, h, w, c)` order. -/
def flattenNHWC (m : Map4) : List ℚ :=
  (List.range m.n).flatMap fun i =>
    (List.range m.h).flatMap fun y =>
      (List.range m.w).flatMap fun x =>
        (List.range m.c).map fun ch => m.val i ch y x

/-- `score = rpn_cls_prob[:, n_anchor:, :, :]` with `n_anchor = shape[1] / 2`
(Python 2 floor division), then `transpose((0, 2, 3, 1)).reshape(-1)`. -/
def scoreFlat (m : Map4) : List ℚ :=
  flattenNHWC (sliceC (m.c / 2) m)

/-- Group a flat list into consecutive 4-tuples.  Only ever applied under the
`deltaRows` guard that the length is a multiple of 4, so the remainder case is
unreachable there. -/
def chunk4 : List ℚ → List BoxDelta
  | a :: b :: c :: d :: t => ⟨a, b, c, d⟩ :: chunk4 t
  | _ => []

/-- `bbox_deltas.transpose((0, 2, 3, 1)).reshape((-1, 4))`.  numpy raises
`ValueError` when the flattened size is not a multiple of 4; this is the
`none` case. -/
def deltaRows (m : Map4) : Option (List BoxDelta) :=
  if (flattenNHWC m).length % 4 = 0 then some (chunk4 (flattenNHWC m))
  else none

/-- Modelled from the spec: one step of `bbox_regression_target_inv`, which is
imported by the source but defined outside it.  Spec §4.1: from anchor width,
height and center, `cx = dx*w_a + cx_a`, `cy = dy*h_a + cy_a`,
`w = exp(dw)*w_a`, `h = exp(dh)*h_a`, and the corners are `center ± size/2`.
The real exponential is passed in as the function `e`, keeping the
development over `ℚ` executable; every theorem below holds for every `e`. -/
def bbox_regression_target_inv_one (e : ℚ → ℚ) (a : Box) (d : BoxDelta) : Box :=
  let wa := a.x2 - a.x1
  let ha := a.y2 - a.y1
  let cxa := a.x1 + wa / 2
  let cya := a.y1 + ha / 2
  let cx := d.dx * wa + cxa
  let cy := d.dy * ha + cya
  let w := e d.dw * wa
  let h := e d.dh * ha
  ⟨cx - w / 2, cy - h / 2, cx + w / 2, cy + h / 2⟩

/-- Modelled from the spec: `bbox_regression_target_inv` decodes co-indexed
anchors and deltas into boxes, one per index (spec §4.1: total, length `R`,
no clipping or validity check). -/
def bbox_regression_target_inv (e : ℚ → ℚ) (anchor : List Box)
    (deltas : List BoxDelta) : List Box :=
  List.zipWith (bbox_regression_target_inv_one e) anchor deltas

/-- Step 2 of `__call__`: `np.clip` of the x coordinates into
`[0, img_size[0]]` and of the y coordinates into `[0, img_size[1]]`,
each coordinate independently (`np.clip(v, lo, hi) = min (max v lo) hi`). -/
def clipBox (W H : ℚ) (b : Box) : Box :=
  { x1 := min (max b.x1 0) W
    y1 := min (max b.y1 0) H
    x2 := min (max b.x2 0) W
    y2 := min (max b.y2 0) H }

/-- The size-filter semantics of step 3 of `__call__` on co-indexed
(box, score) pairs: keep a pair iff `ws >= min_size` and `hs >= min_size`.
Whenever `__call__` succeeds its kept pairs are exactly these (proved in
`keepIdx_pairs_eq_sizeFilter` below). -/
def sizeFilter (min_size : ℚ) (pairs : List (Box × ℚ)) : List (Box × ℚ) :=
  pairs.filter fun p =>
    decide (min_size ≤ p.1.x2 - p.1.x1) && decide (min_size ≤ p.1.y2 - p.1.y1)

/-- Step 3 of `__call__` as the source computes it:
`keep = np.where((ws >= min_size) & (hs >= min_size))[0]`, the index array of
the proposals passing the size filter. -/
def keepIdx (min_size : ℚ) (proposal : List Box) : List ℕ :=
  (List.range proposal.length).filter fun i =>
    decide (min_size ≤ (proposal.getD i default).x2 - (proposal.getD i default).x1) &&
    decide (min_size ≤ (proposal.getD i default).y2 - (proposal.getD i default).y1)

/-- Insert an element into a list that is descending under the key `k`,
keeping it descending. -/
def insertDescBy (k : α → ℚ) (a : α) : List α → List α
  | [] => [a]
  | b :: t => if k b ≤ k a then a :: b :: t else b :: insertDescBy k a t

/-- Sort a list into descending order of the key `k`.  This models
`order = score.ravel().argsort()[::-1]` followed by indexing `proposal` and
`score` by the same `order` (steps 4-5 of `__call__`). -/
def sortDescBy (k : α → ℚ) : List α → List α
  | [] => []
  | a :: t => insertDescBy k a (sortDescBy k t)

/-- Step 5 of `__call__`: `if pre_nms_topN > 0: order = order[:pre_nms_topN]`. -/
def preTruncate (n : ℤ) (l : List α) : List α :=
  if 0 < n then l.take n.toNat else l

/-- Modelled from the spec: intersection-over-union of two boxes, area of
intersection over area of union (spec glossary), used by the Suppressor. -/
def iou (a b : Box) : ℚ :=
  let iw := min a.x2 b.x2 - max a.x1 b.x1
  let ih := min a.y2 b.y2 - max a.y1 b.y1
  let inter := max iw 0 * max ih 0
  inter / ((a.x2 - a.x1) * (a.y2 - a.y1) + (b.x2 - b.x1) * (b.y2 - b.y1) - inter)

/-- Greedy suppression loop over a score-descending list of candidate indices:
keep the head, drop every later index whose box overlaps it with
`iou ≥ thresh`, recurse.  `fuel` bounds the recursion by the list length. -/
def nmsLoop (thresh : ℚ) (boxes : List Box) : ℕ → List ℕ → List ℕ
  | 0, _ => []
  | _, [] => []
  | fuel + 1, i :: rest =>
      i :: nmsLoop thresh boxes fuel
        (rest.filter fun j =>
          decide (iou (boxes.getD i default) (boxes.getD j default) < thresh))

/-- Modelled from the spec: `non_maximum_suppression`, imported by the source
but defined outside it.  Spec §6: given boxes, scores and a threshold it
returns indices into `boxes`, ordered by descending score among the kept set,
such that no two kept boxes have IoU ≥ the threshold, via the standard greedy
algorithm; it accepts empty input.  The accelerated and plain code paths have
the same semantic contract, so a single function models both. -/
def non_maximum_suppression (boxes : List Box) (thresh : ℚ) (score : List ℚ) :
    List ℕ :=
  let order := sortDescBy (fun i => score.getD i 0) (List.range boxes.length)
  nmsLoop thresh boxes order.length order

/-- An output RoI record: a constant batch index (`np.zeros`) prefixed to a
proposal box (`np.hstack`). -/
structure Roi where
  batch_ind : ℚ
  box : Box
deriving DecidableEq, Inhabited

/-- The failures of `ProposalCreator.__call__`:
* `unsupportedBatchSize` — the explicit
  `ValueError('Only batchsize 1 is supported')` (the spec's
  `UnsupportedBatchSize`);
* `reshapeSizeMismatch` — numpy's `ValueError` from
  `bbox_deltas.reshape((-1, 4))` when the flattened size is not a multiple
  of 4;
* `scoreIndexOutOfRange` — numpy's `IndexError` from `score[keep]` when a
  kept index is not covered by the flattened scores. -/
inductive ProposalError where
  | unsupportedBatchSize
  | reshapeSizeMismatch
  | scoreIndexOutOfRange
deriving DecidableEq

/-- Configuration of `ProposalCreator.__init__`, with the source's defaults.
`use_gpu_nms` only selects the Suppressor's code path, which has a single
semantic contract (spec §6), so `__call__` below does not consult it. -/
structure ProposalCreator where
  use_gpu_nms : Bool := true
  rpn_nms_thresh : ℚ := 7 / 10
  train_rpn_pre_nms_top_n : ℤ := 12000
  train_rpn_post_nms_top_n : ℤ := 2000
  test_rpn_pre_nms_top_n : ℤ := 6000
  test_rpn_post_nms_top_n : ℤ := 300
  rpn_min_size : ℚ := 16

/-- The candidate (box, score) pairs that reach the ranking step of
`__call__` on a successful run: decode, clip, then the size filter on the
co-indexed pairs, with `min_size = self.rpn_min_size * scale`.  Whenever
`__call__` succeeds, the pairs it builds by indexing with `keep` coincide
with this zip-based form, since every kept index is then covered by both
lists (`keepIdx_pairs_eq_sizeFilter`). -/
def candidatePairs (self : ProposalCreator) (e : ℚ → ℚ)
    (rpn_bbox_pred rpn_cls_prob : Map4) (anchor : List Box)
    (img_size : ℚ × ℚ) (scale : ℚ) : List (Box × ℚ) :=
  let proposal :=
    (bbox_regression_target_inv e anchor
        (chunk4 (flattenNHWC rpn_bbox_pred))).map
      (clipBox img_size.1 img_size.2)
  sizeFilter (self.rpn_min_size * scale) (proposal.zip (scoreFlat rpn_cls_prob))

/-- `ProposalCreator.__call__`: batch-size check, channel split, delta
reshape (numpy `ValueError` on a size mismatch), decode, clip, size filter,
`score[keep]` (numpy `IndexError` when a kept index is uncovered),
score-descending sort, pre-NMS truncation, suppression, post-NMS truncation,
and RoI assembly with constant batch index 0. -/
def ProposalCreator.call (self : ProposalCreator) (e : ℚ → ℚ)
    (rpn_bbox_pred rpn_cls_prob : Map4) (anchor : List Box)
    (img_size : ℚ × ℚ) (scale : ℚ) (train : Bool) :
    Except ProposalError (List Roi) :=
  let pre_nms_topN :=
    if train then self.train_rpn_pre_nms_top_n else self.test_rpn_pre_nms_top_n
  let post_nms_topN :=
    if train then self.train_rpn_post_nms_top_n else self.test_rpn_post_nms_top_n
  if rpn_bbox_pred.n = 1 ∧ rpn_cls_prob.n = 1 then
    let score := scoreFlat rpn_cls_prob
    match deltaRows rpn_bbox_pred with
    | none => Except.error ProposalError.reshapeSizeMismatch
    | some bbox_deltas =>
      let proposal :=
        (bbox_regression_target_inv e anchor bbox_deltas).map
          (clipBox img_size.1 img_size.2)
      let keep := keepIdx (self.rpn_min_size * scale) proposal
      if keep.all fun i => decide (i < score.length) then
        let pairs := keep.map fun i => (proposal.getD i default, score.getD i 0)
        let ranked := preTruncate pre_nms_topN (sortDescBy Prod.snd pairs)
        let keep2 :=
          non_maximum_suppression (ranked.map Prod.fst) self.rpn_nms_thresh
            (ranked.map Prod.snd)
        let keep3 :=
          if 0 < post_nms_topN then keep2.take post_nms_topN.toNat else keep2
        Except.ok (keep3.map fun i =>
          { batch_ind := 0, box := (ranked.map Prod.fst).getD i default })
      else
        Except.error ProposalError.scoreIndexOutOfRange
  else
    Except.error ProposalError.unsupportedBatchSize

/-! ### Concrete inputs used to instantiate the theorems below -/

/-- A stand-in for the real exponential in concrete runs; the theorems hold
for every exponential function. -/
def expOne : ℚ → ℚ := fun _ => 1

/-- One anchor `(0, 0, 16, 16)`. -/
def anchorEx : List Box := [⟨0, 0, 16, 16⟩]

/-- A `(1, 4, 1, 1)` delta map that is identically zero. -/
def predEx : Map4 := ⟨1, 4, 1, 1, fun _ _ _ _ => 0⟩

/-- A `(1, 2, 1, 1)` score map: background channel 0, foreground score 1/2. -/
def probEx : Map4 := ⟨1, 2, 1, 1, fun _ ch _ _ => (ch : ℚ) / 2⟩

/-- A `(1, 3, 1, 1)` score map with an odd channel count. -/
def probOdd : Map4 := ⟨1, 3, 1, 1, fun _ ch _ _ => (ch : ℚ)⟩

/-- A `(2, 2, 1, 1)` score map: two images' worth of scores. -/
def probBatch2 : Map4 := ⟨2, 2, 1, 1, fun _ ch _ _ => (ch : ℚ) / 2⟩

/-- A `(1, 4, 1, 2)` score map whose value records its channel and column. -/
def probC1 : Map4 := ⟨1, 4, 1, 2, fun _ ch _ x => (ch : ℚ) * 10 + (x : ℚ)⟩

/-- A `(1, 4, 1, 0)` delta map: zero anchors' worth of deltas. -/
def predEmpty : Map4 := ⟨1, 4, 1, 0, fun _ _ _ _ => 0⟩

/-- A `(1, 2, 1, 0)` score map: zero anchors' worth of scores. -/
def probEmpty : Map4 := ⟨1, 2, 1, 0, fun _ _ _ _ => 0⟩

/-- The default configuration of `ProposalCreator.__init__`. -/
def cfgDefault : ProposalCreator := ⟨true, 7 / 10, 12000, 2000, 6000, 300, 16⟩

/-- The default configuration except `test_rpn_post_nms_top_n = 0`. -/
def cfgPost0 : ProposalCreator := ⟨true, 7 / 10, 12000, 2000, 6000, 0, 16⟩

/-- The default configuration except `rpn_min_size = 0`. -/
def cfgMin0 : ProposalCreator := ⟨true, 7 / 10, 12000, 2000, 6000, 300, 0⟩

/-- Three (box, score) pairs, not sorted by score. -/
def pairsEx : List (Box × ℚ) :=
  [(⟨0, 0, 5, 5⟩, 1 / 2), (⟨0, 0, 8, 8⟩, 3 / 4), (⟨1, 1, 2, 2⟩, 1 / 4)]

/-! ### Helper lemmas about the sorting, truncation and suppression steps -/

theorem mem_insertDescBy {α : Type} {k : α → ℚ} {a x : α} {l : List α} :
    x ∈ insertDescBy k a l ↔ x = a ∨ x ∈ l := by
  induction l with
  | nil => simp [insertDescBy]
  | cons b t ih =>
      by_cases h : k b ≤ k a
      · simp only [insertDescBy, if_pos h, List.mem_cons]
      · simp only [insertDescBy, if_neg h, List.mem_cons, ih]
        tauto

theorem insertDescBy_perm {α : Type} (k : α → ℚ) (a : α) (l : List α) :
    (insertDescBy k a l).Perm (a :: l) := by
  induction l with
  | nil => exact List.Perm.refl _
  | cons b t ih =>
      by_cases h : k b ≤ k a
      · simp [insertDescBy, h]
      · simp only [insertDescBy, h, if_false]
        exact (ih.cons b).trans (List.Perm.swap a b t)

theorem sortDescBy_perm {α : Type} (k : α → ℚ) (l : List α) :
    (sortDescBy k l).Perm l := by
  induction l with
  | nil => exact List.Perm.refl _
  | cons a t ih =>
      exact (insertDescBy_perm k a (sortDescBy k t)).trans (ih.cons a)

theorem pairwise_insertDescBy {α : Type} {k : α → ℚ} {a : α} {l : List α}
    (h : l.Pairwise fun x y => k y ≤ k x) :
    (insertDescBy k a l).Pairwise fun x y => k y ≤ k x := by
  induction l with
  | nil => simp [insertDescBy]
  | cons b t ih =>
      rcases h with _ | ⟨hb, ht⟩
      by_cases hba : k b ≤ k a
      · simp only [insertDescBy, if_pos hba]
        refine List.Pairwise.cons ?_ (List.Pairwise.cons hb ht)
        intro y hy
        rcases List.mem_cons.mp hy with rfl | hyt
        · exact hba
        · exact le_trans (hb y hyt) hba
      · have hab : k a ≤ k b := le_of_not_le hba
        simp only [insertDescBy, hba, if_false]
        refine List.Pairwise.cons ?_ (ih ht)
        intro y hy
        rcases mem_insertDescBy.mp hy with rfl | hyt
        · exact hab
        · exact hb y hyt

theorem sortDescBy_pairwise {α : Type} (k : α → ℚ) (l : List α) :
    (sortDescBy k l).Pairwise fun x y => k y ≤ k x := by
  induction l with
  | nil => simp [sortDescBy]
  | cons a t ih => exact pairwise_insertDescBy ih

theorem preTruncate_subset {α : Type} (n : ℤ) (l : List α) :
    preTruncate n l ⊆ l := by
  unfold preTruncate
  split
  · exact List.take_subset _ _
  · exact fun x hx => hx

theorem preTruncate_length_le {α : Type} (n : ℤ) (l : List α) :
    (preTruncate n l).length ≤ l.length := by
  unfold preTruncate
  split
  · exact le_trans (le_of_eq (List.length_take _ _)) (min_le_right _ _)
  · exact le_refl _

theorem nmsLoop_length (thresh : ℚ) (boxes : List Box) :
    ∀ (fuel : ℕ) (l : List ℕ), (nmsLoop thresh boxes fuel l).length ≤ l.length := by
  intro fuel
  induction fuel with
  | zero => intro l; simp [nmsLoop]
  | succ f ih =>
      intro l
      cases l with
      | nil => simp [nmsLoop]
      | cons i rest =>
          simp only [nmsLoop, List.length_cons]
          exact Nat.succ_le_succ (le_trans (ih _) (List.length_filter_le _ _))

theorem nmsLoop_subset (thresh : ℚ) (boxes : List Box) :
    ∀ (fuel : ℕ) (l : List ℕ), nmsLoop thresh boxes fuel l ⊆ l := by
  intro fuel
  induction fuel with
  | zero => intro l; simp [nmsLoop]
  | succ f ih =>
      intro l
      cases l with
      | nil => simp [nmsLoop]
      | cons i rest =>
          intro x hx
          simp only [nmsLoop, List.mem_cons] at hx
          rcases hx with rfl | hx
          · exact List.mem_cons_self _ _
          · exact List.mem_cons_of_mem _ (List.mem_of_mem_filter (ih _ hx))

theorem nms_length_le (boxes : List Box) (thresh : ℚ) (score : List ℚ) :
    (non_maximum_suppression boxes thresh score).length ≤ boxes.length := by
  unfold non_maximum_suppression
  refine le_trans (nmsLoop_length _ _ _ _) ?_
  rw [(sortDescBy_perm _ _).length_eq, List.length_range]

theorem nms_mem_lt {boxes : List Box} {thresh : ℚ} {score : List ℚ} {i : ℕ}
    (h : i ∈ non_maximum_suppression boxes thresh score) : i < boxes.length := by
  unfold non_maximum_suppression at h
  have h2 := nmsLoop_subset _ _ _ _ h
  rw [(sortDescBy_perm _ _).mem_iff, List.mem_range] at h2
  exact h2

theorem keepIdx_nil (ms : ℚ) : keepIdx ms [] = [] := by
  simp [keepIdx]

theorem keepIdx_cons (ms : ℚ) (b : Box) (pt : List Box) :
    keepIdx ms (b :: pt) =
      (if ms ≤ b.x2 - b.x1 ∧ ms ≤ b.y2 - b.y1 then [0] else []) ++
        (keepIdx ms pt).map Nat.succ := by
  unfold keepIdx
  rw [List.length_cons, List.range_succ_eq_map, List.filter_cons,
    List.filter_map]
  simp only [List.getD_cons_zero, Function.comp_def, List.getD_cons_succ,
    Bool.and_eq_true, decide_eq_true_eq]
  split
  · rw [List.singleton_append]
  · rw [List.nil_append]

/-- On a successful run the pairs that `__call__` builds by indexing with
`keep` — `proposal[keep]` and `score[keep]`, every kept index covered by the
scores — are exactly the size-filter of the co-indexed (box, score) pairs. -/
theorem keepIdx_pairs_eq_sizeFilter (ms : ℚ) :
    ∀ (proposal : List Box) (score : List ℚ),
      (∀ i ∈ keepIdx ms proposal, i < score.length) →
      (keepIdx ms proposal).map
          (fun i => (proposal.getD i default, score.getD i 0)) =
        sizeFilter ms (proposal.zip score) := by
  intro proposal
  induction proposal with
  | nil => intro score hcov; simp [keepIdx_nil, sizeFilter]
  | cons b pt ih =>
      intro score hcov
      cases score with
      | nil =>
          have hk : keepIdx ms (b :: pt) = [] :=
            List.eq_nil_iff_forall_not_mem.mpr fun i hi =>
              absurd (hcov i hi) (Nat.not_lt_zero i)
          rw [hk]
          simp [sizeFilter]
      | cons s st =>
          have hcov' : ∀ i ∈ keepIdx ms pt, i < st.length := by
            intro i hi
            have hmem : i + 1 ∈ keepIdx ms (b :: pt) := by
              rw [keepIdx_cons]
              exact List.mem_append_right _
                (List.mem_map.mpr ⟨i, hi, rfl⟩)
            have := hcov (i + 1) hmem
            simpa using this
          rw [keepIdx_cons, List.map_append, List.map_map]
          have hmap : ((fun i => ((b :: pt).getD i default,
              (s :: st).getD i 0)) ∘ Nat.succ) =
              fun i => (pt.getD i default, st.getD i 0) := by
            funext i
            simp [Function.comp_def, List.getD_cons_succ]
          rw [hmap, ih st hcov']
          rw [List.zip_cons_cons]
          simp only [sizeFilter, List.filter_cons, Bool.and_eq_true,
            decide_eq_true_eq]
          split
          · simp [List.getD_cons_zero]
          · simp

theorem clip_coord_idem (L v : ℚ) :
    min (max (min (max v 0) L) 0) L = min (max v 0) L := by
  rcases le_total L 0 with hL | hL
  · rw [min_eq_right (le_trans hL (le_max_right v 0)), max_eq_right hL]
    exact min_eq_right hL
  · rw [max_eq_left (le_min (le_max_right v 0) hL),
      min_eq_left (min_le_right _ _)]

/-! ### Claim theorems -/

/-- C7: the clip step clamps each coordinate independently — x into
`[0, image_width]`, y into `[0, image_height]`; a box already inside the
bounds is unchanged, and clipping is idempotent. -/
theorem clipBox_clamps (W H : ℚ) (b : Box) :
    clipBox W H (clipBox W H b) = clipBox W H b ∧
      (0 ≤ b.x1 → b.x1 ≤ W → 0 ≤ b.y1 → b.y1 ≤ H → 0 ≤ b.x2 → b.x2 ≤ W →
        0 ≤ b.y2 → b.y2 ≤ H → clipBox W H b = b) ∧
      (0 ≤ W → 0 ≤ H →
        0 ≤ (clipBox W H b).x1 ∧ (clipBox W H b).x1 ≤ W ∧
        0 ≤ (clipBox W H b).y1 ∧ (clipBox W H b).y1 ≤ H ∧
        0 ≤ (clipBox W H b).x2 ∧ (clipBox W H b).x2 ≤ W ∧
        0 ≤ (clipBox W H b).y2 ∧ (clipBox W H b).y2 ≤ H) := by
  obtain ⟨x1, y1, x2, y2⟩ := b
  refine ⟨?_, ?_, ?_⟩
  · simp only [clipBox, Box.mk.injEq]
    exact ⟨clip_coord_idem W x1, clip_coord_idem H y1,
      clip_coord_idem W x2, clip_coord_idem H y2⟩
  · intro hx1 hx1W hy1 hy1H hx2 hx2W hy2 hy2H
    simp only [clipBox, Box.mk.injEq]
    rw [max_eq_left hx1, min_eq_left hx1W, max_eq_left hy1, min_eq_left hy1H,
      max_eq_left hx2, min_eq_left hx2W, max_eq_left hy2, min_eq_left hy2H]
    exact ⟨rfl, rfl, rfl, rfl⟩
  · intro hW hH
    simp only [clipBox]
    exact ⟨le_min (le_max_right _ _) hW, min_le_right _ _,
      le_min (le_max_right _ _) hH, min_le_right _ _,
      le_min (le_max_right _ _) hW, min_le_right _ _,
      le_min (le_max_right _ _) hH, min_le_right _ _⟩

theorem clipBox_clamps_witness :
    clipBox 20 20 (clipBox 20 20 ⟨1, 2, 3, 4⟩) = clipBox 20 20 ⟨1, 2, 3, 4⟩ ∧
      clipBox 20 20 ⟨1, 2, 3, 4⟩ = ⟨1, 2, 3, 4⟩ :=
  ⟨(clipBox_clamps 20 20 ⟨1, 2, 3, 4⟩).1,
    (clipBox_clamps 20 20 ⟨1, 2, 3, 4⟩).2.1 (by norm_num) (by norm_num)
      (by norm_num) (by norm_num) (by norm_num) (by norm_num) (by norm_num)
      (by norm_num)⟩

/-- C1: with an even channel count `2*A`, the flattened per-anchor foreground
scores are exactly the entries of the second half of the score map's channels
(channels `A..2A-1`), the first half being discarded. -/
theorem scoreFlat_second_half (m : Map4) (A : ℕ) (hn : m.n = 1)
    (hA : m.c = 2 * A) :
    scoreFlat m =
      (List.range m.h).flatMap fun y =>
        (List.range m.w).flatMap fun x =>
          (List.range A).map fun a => m.val 0 (A + a) y x := by
  have h2 : 2 * A / 2 = A := by omega
  have h3 : 2 * A - A = A := by omega
  simp [scoreFlat, flattenNHWC, sliceC, hn, hA, h2, h3, List.range_succ]

theorem scoreFlat_second_half_witness :
    probC1.n = 1 ∧ probC1.c = 2 * 2 ∧
      scoreFlat probC1 = [20, 30, 21, 31] := by
  refine ⟨rfl, rfl, ?_⟩
  rw [scoreFlat_second_half probC1 2 rfl rfl]
  with_unfolding_all rfl

/-- C2: `__call__` raises the batch-size error exactly when the leading
dimension of the delta map or of the score map is not 1; with both equal to 1
the error is not raised and a result is returned. -/
theorem call_batch_error_iff (self : ProposalCreator) (e : ℚ → ℚ)
    (pred prob : Map4) (anchor : List Box) (img : ℚ × ℚ) (scale : ℚ)
    (train : Bool) :
    ProposalCreator.call self e pred prob anchor img scale train =
        Except.error ProposalError.unsupportedBatchSize ↔
      ¬(pred.n = 1 ∧ prob.n = 1) := by
  by_cases h : pred.n = 1 ∧ prob.n = 1
  · have hne : ProposalCreator.call self e pred prob anchor img scale train ≠
        Except.error ProposalError.unsupportedBatchSize := by
      unfold ProposalCreator.call
      rw [if_pos h]
      cases hd : deltaRows pred with
      | none => simp
      | some rows =>
          simp only []
          split
          · simp
          · simp
    simp [hne, h]
  · unfold ProposalCreator.call
    rw [if_neg h]
    simp [h]

/-- C3: after clipping, a candidate is kept by the size filter iff its
post-clip width and height are both at least `min_size`, where
`min_size = rpn_min_size * scale`; equality on the boundary is kept and a
strictly smaller width is discarded. -/
theorem sizeFilter_keep_iff (self : ProposalCreator) (scale : ℚ)
    (pairs : List (Box × ℚ)) (p : Box × ℚ) :
    p ∈ sizeFilter (self.rpn_min_size * scale) pairs ↔
      p ∈ pairs ∧ self.rpn_min_size * scale ≤ p.1.x2 - p.1.x1 ∧
        self.rpn_min_size * scale ≤ p.1.y2 - p.1.y1 := by
  simp [sizeFilter, List.mem_filter, and_assoc]

/-- C6: after the rank step the surviving candidates are a permutation of the
(box, score) pairs — each box stays paired with its own score — and every
adjacent pair of scores is in descending order. -/
theorem sortDescBy_ranked (pairs : List (Box × ℚ)) :
    (sortDescBy Prod.snd pairs).Perm pairs ∧
      ∀ (i : ℕ) (p q : Box × ℚ),
        (sortDescBy Prod.snd pairs).get? i = some p →
        (sortDescBy Prod.snd pairs).get? (i + 1) = some q →
        q.2 ≤ p.2 := by
  refine ⟨sortDescBy_perm _ _, ?_⟩
  intro i p q hp hq
  rcases List.get?_eq_some.mp hp with ⟨hi, rfl⟩
  rcases List.get?_eq_some.mp hq with ⟨hj, rfl⟩
  exact List.pairwise_iff_get.mp (sortDescBy_pairwise Prod.snd pairs)
    ⟨i, hi⟩ ⟨i + 1, hj⟩ (Nat.lt_succ_self i)

theorem sortDescBy_ranked_witness :
    (sortDescBy Prod.snd pairsEx).Perm pairsEx ∧ (1 / 2 : ℚ) ≤ 3 / 4 := by
  refine ⟨(sortDescBy_ranked pairsEx).1, ?_⟩
  refine (sortDescBy_ranked pairsEx).2 0 (⟨0, 0, 8, 8⟩, 3 / 4) (⟨0, 0, 5, 5⟩, 1 / 2)
    ?_ ?_
  · with_unfolding_all rfl
  · with_unfolding_all rfl

theorem preTruncate_eq_take {α : Type} (n : ℤ) (l : List α) :
    preTruncate n l = l.take (if 0 < n then n.toNat else l.length) := by
  unfold preTruncate
  by_cases h : 0 < n
  · simp [h]
  · simp [h]

/-- C5: the pre-NMS truncation keeps only the top `pre_budget` ranked
candidates — at most `pre_budget` of them when `pre_budget > 0` (so the
Suppressor never receives more), everything when `pre_budget ≤ 0`, and every
kept candidate's score is at least every dropped candidate's score. -/
theorem preTruncate_top (pre : ℤ) (pairs : List (Box × ℚ)) :
    (0 < pre →
      ((preTruncate pre (sortDescBy Prod.snd pairs)).length : ℤ) ≤ pre) ∧
    (pre ≤ 0 →
      preTruncate pre (sortDescBy Prod.snd pairs) = sortDescBy Prod.snd pairs) ∧
    (∀ p ∈ preTruncate pre (sortDescBy Prod.snd pairs),
      ∀ q ∈ (sortDescBy Prod.snd pairs).drop
          ((preTruncate pre (sortDescBy Prod.snd pairs)).length),
        q.2 ≤ p.2) := by
  refine ⟨?_, ?_, ?_⟩
  · intro h
    rw [preTruncate, if_pos h, List.length_take]
    have h1 : min pre.toNat (sortDescBy Prod.snd pairs).length ≤ pre.toNat :=
      min_le_left _ _
    omega
  · intro h
    rw [preTruncate, if_neg (not_lt.mpr h)]
  · intro p hp q hq
    rw [preTruncate_eq_take] at hp hq
    rw [List.length_take] at hq
    set r := sortDescBy Prod.snd pairs with hr
    set m := if 0 < pre then pre.toNat else r.length with hm
    have hsplit : r.take m ++ r.drop (min m r.length) = r := by
      rcases le_total m r.length with h | h
      · rw [min_eq_left h, List.take_append_drop]
      · rw [min_eq_right h, List.drop_length, List.append_nil,
          List.take_of_length_le h]
    have hpair :=
      (List.pairwise_append.mp
        (by rw [hsplit]; exact sortDescBy_pairwise Prod.snd pairs)).2.2
    exact hpair p hp q hq

theorem preTruncate_top_witness :
    ((preTruncate 2 (sortDescBy Prod.snd pairsEx)).length : ℤ) ≤ 2 ∧
      (1 / 4 : ℚ) ≤ 3 / 4 := by
  constructor
  · exact (preTruncate_top 2 pairsEx).1 (by decide)
  · refine (preTruncate_top 2 pairsEx).2.2 (⟨0, 0, 8, 8⟩, 3 / 4) ?_
      (⟨1, 1, 2, 2⟩, 1 / 4) ?_
    · have e : preTruncate 2 (sortDescBy Prod.snd pairsEx) =
          [(⟨0, 0, 8, 8⟩, 3 / 4), (⟨0, 0, 5, 5⟩, 1 / 2)] := by
        with_unfolding_all rfl
      rw [e]
      exact List.mem_cons_self _ _
    · have e : (sortDescBy Prod.snd pairsEx).drop
          ((preTruncate 2 (sortDescBy Prod.snd pairsEx)).length) =
            [(⟨1, 1, 2, 2⟩, 1 / 4)] := by
        with_unfolding_all rfl
      rw [e]
      exact List.mem_cons_self _ _

theorem clipBox_in_bounds (W H : ℚ) (b : Box) (hW : 0 ≤ W) (hH : 0 ≤ H) :
    0 ≤ (clipBox W H b).x1 ∧ (clipBox W H b).x1 ≤ W ∧
      0 ≤ (clipBox W H b).y1 ∧ (clipBox W H b).y1 ≤ H ∧
      0 ≤ (clipBox W H b).x2 ∧ (clipBox W H b).x2 ≤ W ∧
      0 ≤ (clipBox W H b).y2 ∧ (clipBox W H b).y2 ≤ H := by
  simp only [clipBox]
  exact ⟨le_min (le_max_right _ _) hW, min_le_right _ _,
    le_min (le_max_right _ _) hH, min_le_right _ _,
    le_min (le_max_right _ _) hW, min_le_right _ _,
    le_min (le_max_right _ _) hH, min_le_right _ _⟩

/-- C8 (amended): `__call__` performs no dedicated shape validation — no
anchor-count check against `A*H*W` and no channel-count check.  The only
failure points are the batch-size check and the numpy operations themselves:
the delta `reshape((-1, 4))` (a `ValueError` when the flattened delta size is
not a multiple of 4) and `score[keep]` (an `IndexError` when a kept index is
not covered by the scores).  When those succeed the call returns a result,
whatever the score-channel parity or anchor count: neither hypothesis below
mentions them. -/
theorem call_ok_no_shape_check (self : ProposalCreator) (e : ℚ → ℚ)
    (pred prob : Map4) (anchor : List Box) (img : ℚ × ℚ) (scale : ℚ)
    (train : Bool) (h1 : pred.n = 1) (h2 : prob.n = 1)
    (h4 : (flattenNHWC pred).length % 4 = 0)
    (hs : ∀ i ∈ keepIdx (self.rpn_min_size * scale)
        ((bbox_regression_target_inv e anchor
          (chunk4 (flattenNHWC pred))).map (clipBox img.1 img.2)),
      i < (scoreFlat prob).length) :
    ∃ out, ProposalCreator.call self e pred prob anchor img scale train =
      Except.ok out := by
  unfold ProposalCreator.call
  rw [if_pos (And.intro h1 h2)]
  have hd : deltaRows pred = some (chunk4 (flattenNHWC pred)) := by
    rw [deltaRows, if_pos h4]
  rw [hd]
  simp only []
  rw [if_pos (List.all_eq_true.mpr fun i hi => decide_eq_true (hs i hi))]
  exact ⟨_, rfl⟩

theorem call_ok_no_shape_check_witness :
    ∃ out, ProposalCreator.call cfgDefault expOne predEx probOdd anchorEx
      (20, 20) 1 false = Except.ok out := by
  refine call_ok_no_shape_check cfgDefault expOne predEx probOdd anchorEx
    (20, 20) 1 false rfl rfl (by with_unfolding_all rfl) ?_
  intro i hi
  have e1 : keepIdx (cfgDefault.rpn_min_size * 1)
      ((bbox_regression_target_inv expOne anchorEx
        (chunk4 (flattenNHWC predEx))).map (clipBox (20, 20).1 (20, 20).2)) =
      [0] := by
    with_unfolding_all rfl
  have e2 : (scoreFlat probOdd).length = 2 := by
    with_unfolding_all rfl
  rw [e1] at hi
  rw [e2]
  rcases List.mem_singleton.mp hi with rfl
  omega

/-- C8 counterexample: a score map with an odd channel count (3, where an even
count `2*A` would be consistent with the 4-channel delta map) is not rejected:
`__call__` raises no error and returns a proposal list. -/
theorem call_oddChannels_no_error :
    probOdd.c % 2 = 1 ∧
      ProposalCreator.call cfgDefault expOne predEx probOdd anchorEx (20, 20) 1
        false = Except.ok [⟨0, ⟨0, 0, 16, 16⟩⟩] :=
  ⟨rfl, by with_unfolding_all rfl⟩

/-- C9: with zero anchors (and batch-1 maps holding zero anchors' worth of
data) `__call__` returns the empty RoI list and raises no error. -/
theorem call_empty_anchors (self : ProposalCreator) (e : ℚ → ℚ)
    (pred prob : Map4) (img : ℚ × ℚ) (scale : ℚ) (train : Bool)
    (h1 : pred.n = 1) (h2 : prob.n = 1) (hw1 : pred.w = 0) (hw2 : prob.w = 0) :
    ProposalCreator.call self e pred prob [] img scale train = Except.ok [] := by
  unfold ProposalCreator.call
  rw [if_pos (And.intro h1 h2)]
  have hflat : flattenNHWC pred = [] := by
    unfold flattenNHWC
    rw [hw1]
    simp
  have hd : deltaRows pred = some [] := by
    rw [deltaRows, hflat]
    simp [chunk4]
  rw [hd]
  simp [bbox_regression_target_inv, keepIdx, sortDescBy, preTruncate,
    non_maximum_suppression, nmsLoop]

theorem call_empty_anchors_witness :
    ProposalCreator.call cfgDefault expOne predEmpty probEmpty [] (20, 20) 1
      false = Except.ok [] :=
  call_empty_anchors cfgDefault expOne predEmpty probEmpty (20, 20) 1 false
    rfl rfl rfl rfl

/-- C4 (amended): the returned RoI list is never longer than the number of
candidates surviving the size filter; and whenever the selected
post-suppression budget is positive, it is also no longer than that budget
(when the budget is ≤ 0 the source skips the truncation). -/
theorem call_output_bounds (self : ProposalCreator) (e : ℚ → ℚ)
    (pred prob : Map4) (anchor : List Box) (img : ℚ × ℚ) (scale : ℚ)
    (train : Bool) (out : List Roi)
    (h : ProposalCreator.call self e pred prob anchor img scale train =
      Except.ok out) :
    out.length ≤ (candidatePairs self e pred prob anchor img scale).length ∧
      (0 < (if train then self.train_rpn_post_nms_top_n
            else self.test_rpn_post_nms_top_n) →
        (out.length : ℤ) ≤
          (if train then self.train_rpn_post_nms_top_n
           else self.test_rpn_post_nms_top_n)) := by
  by_cases hb : pred.n = 1 ∧ prob.n = 1
  · simp only [ProposalCreator.call] at h
    rw [if_pos hb] at h
    cases hd : deltaRows pred with
    | none =>
        rw [hd] at h
        simp at h
    | some rows =>
        rw [hd] at h
        simp only [] at h
        rw [deltaRows] at hd
        by_cases h4 : (flattenNHWC pred).length % 4 = 0
        · rw [if_pos h4] at hd
          injection hd with hrows
          subst hrows
          set ms := self.rpn_min_size * scale with hms
          set score := scoreFlat prob with hscoreEq
          set proposal := (bbox_regression_target_inv e anchor
            (chunk4 (flattenNHWC pred))).map (clipBox img.1 img.2)
            with hproposalEq
          set postN := if train then self.train_rpn_post_nms_top_n
            else self.test_rpn_post_nms_top_n with hpostN
          set preN := if train then self.train_rpn_pre_nms_top_n
            else self.test_rpn_pre_nms_top_n with hpreN
          split at h
          · injection h with hX
            subst hX
            next hall =>
            have hcov : ∀ i ∈ keepIdx ms proposal, i < score.length := by
              intro i hi
              exact of_decide_eq_true (List.all_eq_true.mp hall i hi)
            set pairs := (keepIdx ms proposal).map
              (fun i => (proposal.getD i default, score.getD i 0))
              with hpairsDef
            have hpairs : pairs =
                candidatePairs self e pred prob anchor img scale := by
              rw [hpairsDef, keepIdx_pairs_eq_sizeFilter ms proposal score hcov,
                hms, hscoreEq, hproposalEq]
              rfl
            set ranked := preTruncate preN (sortDescBy Prod.snd pairs)
              with hranked
            set keep2 := non_maximum_suppression (ranked.map Prod.fst)
              self.rpn_nms_thresh (ranked.map Prod.snd) with hkeep2
            have h1 : (if 0 < postN then keep2.take postN.toNat
                else keep2).length ≤ keep2.length := by
              split
              · exact le_trans (le_of_eq (List.length_take _ _))
                  (min_le_right _ _)
              · exact le_refl _
            have h2 : keep2.length ≤ ranked.length := by
              have h3 := nms_length_le (ranked.map Prod.fst)
                self.rpn_nms_thresh (ranked.map Prod.snd)
              rwa [List.length_map] at h3
            have h3 : ranked.length ≤ pairs.length :=
              le_trans (preTruncate_length_le _ _)
                (le_of_eq (sortDescBy_perm Prod.snd pairs).length_eq)
            constructor
            · rw [List.length_map]
              exact le_trans h1 (le_trans h2 (le_trans h3
                (le_of_eq (congrArg List.length hpairs))))
            · intro hp
              rw [List.length_map, if_pos hp, List.length_take]
              have h5 : min postN.toNat keep2.length ≤ postN.toNat :=
                min_le_left _ _
              omega
          · simp at h
        · rw [if_neg h4] at hd
          simp at hd
  · simp only [ProposalCreator.call] at h
    rw [if_neg hb] at h
    simp at h

theorem call_output_bounds_witness :
    [(⟨0, ⟨0, 0, 16, 16⟩⟩ : Roi)].length ≤
        (candidatePairs cfgDefault expOne predEx probEx anchorEx
          (20, 20) 1).length ∧
      (0 < (if false then cfgDefault.train_rpn_post_nms_top_n
            else cfgDefault.test_rpn_post_nms_top_n) →
        (([(⟨0, ⟨0, 0, 16, 16⟩⟩ : Roi)].length : ℤ) ≤
          (if false then cfgDefault.train_rpn_post_nms_top_n
           else cfgDefault.test_rpn_post_nms_top_n))) :=
  call_output_bounds cfgDefault expOne predEx probEx anchorEx (20, 20) 1 false
    [⟨0, ⟨0, 0, 16, 16⟩⟩] (by with_unfolding_all rfl)

/-- C4 counterexample: with a configured post-suppression budget of 0 (test
mode), one surviving proposal is returned — the output length 1 exceeds the
budget 0, because the source only truncates when the budget is positive. -/
theorem call_post0_exceeds_budget :
    ProposalCreator.call cfgPost0 expOne predEx probEx anchorEx (20, 20) 1
        false = Except.ok [⟨0, ⟨0, 0, 16, 16⟩⟩] ∧
      cfgPost0.test_rpn_post_nms_top_n = 0 ∧
      ¬((1 : ℤ) ≤ cfgPost0.test_rpn_post_nms_top_n) :=
  ⟨by with_unfolding_all rfl, rfl, by decide⟩

/-- C10 (amended): provided `rpn_min_size * scale ≥ 0` and the image size is
non-negative, every returned RoI has batch index 0 and a non-inverted box
inside the image bounds. -/
theorem call_output_in_bounds (self : ProposalCreator) (e : ℚ → ℚ)
    (pred prob : Map4) (anchor : List Box) (img : ℚ × ℚ) (scale : ℚ)
    (train : Bool) (out : List Roi)
    (hmin : 0 ≤ self.rpn_min_size * scale) (hW : 0 ≤ img.1) (hH : 0 ≤ img.2)
    (h : ProposalCreator.call self e pred prob anchor img scale train =
      Except.ok out) :
    ∀ r ∈ out, r.batch_ind = 0 ∧
      0 ≤ r.box.x1 ∧ r.box.x1 ≤ r.box.x2 ∧ r.box.x2 ≤ img.1 ∧
      0 ≤ r.box.y1 ∧ r.box.y1 ≤ r.box.y2 ∧ r.box.y2 ≤ img.2 := by
  by_cases hb : pred.n = 1 ∧ prob.n = 1
  · simp only [ProposalCreator.call] at h
    rw [if_pos hb] at h
    cases hd : deltaRows pred with
    | none =>
        rw [hd] at h
        simp at h
    | some rows =>
        rw [hd] at h
        simp only [] at h
        rw [deltaRows] at hd
        by_cases h4 : (flattenNHWC pred).length % 4 = 0
        · rw [if_pos h4] at hd
          injection hd with hrows
          subst hrows
          set ms := self.rpn_min_size * scale with hms
          set score := scoreFlat prob with hscoreEq
          set proposal := (bbox_regression_target_inv e anchor
            (chunk4 (flattenNHWC pred))).map (clipBox img.1 img.2)
            with hproposalEq
          set postN := if train then self.train_rpn_post_nms_top_n
            else self.test_rpn_post_nms_top_n with hpostN
          set preN := if train then self.train_rpn_pre_nms_top_n
            else self.test_rpn_pre_nms_top_n with hpreN
          split at h
          · injection h with hX
            subst hX
            next hall =>
            have hcov : ∀ i ∈ keepIdx ms proposal, i < score.length := by
              intro i hi
              exact of_decide_eq_true (List.all_eq_true.mp hall i hi)
            set pairs := (keepIdx ms proposal).map
              (fun i => (proposal.getD i default, score.getD i 0))
              with hpairsDef
            have hpairs : pairs =
                candidatePairs self e pred prob anchor img scale := by
              rw [hpairsDef, keepIdx_pairs_eq_sizeFilter ms proposal score hcov,
                hms, hscoreEq, hproposalEq]
              rfl
            set ranked := preTruncate preN (sortDescBy Prod.snd pairs)
              with hranked
            set keep2 := non_maximum_suppression (ranked.map Prod.fst)
              self.rpn_nms_thresh (ranked.map Prod.snd) with hkeep2
            intro r hr
            rcases List.mem_map.mp hr with ⟨i, hi, rfl⟩
            refine ⟨rfl, ?_⟩
            have hikeep : i ∈ keep2 := by
              split at hi
              · exact List.take_subset _ _ hi
              · exact hi
            have hlt : i < (ranked.map Prod.fst).length := nms_mem_lt hikeep
            have hbmem : (ranked.map Prod.fst).getD i default ∈
                ranked.map Prod.fst := by
              rw [List.getD_eq_getElem?_getD, List.getElem?_eq_getElem hlt]
              exact List.getElem_mem _
            rcases List.mem_map.mp hbmem with ⟨pr, hpr, hprb⟩
            have hpr2 : pr ∈ sortDescBy Prod.snd pairs :=
              preTruncate_subset _ _ hpr
            have hpr3 : pr ∈ pairs :=
              (sortDescBy_perm Prod.snd pairs).subset hpr2
            rw [hpairs] at hpr3
            simp only [candidatePairs, sizeFilter, List.mem_filter,
              Bool.and_eq_true, decide_eq_true_eq] at hpr3
            obtain ⟨hzip, hw', hh'⟩ := hpr3
            have hcl : pr.1 ∈ (bbox_regression_target_inv e anchor
                (chunk4 (flattenNHWC pred))).map (clipBox img.1 img.2) :=
              (List.of_mem_zip hzip).1
            rcases List.mem_map.mp hcl with ⟨b0, hb0mem, hb0⟩
            dsimp only
            rw [← hprb, ← hb0]
            rw [← hb0] at hw' hh'
            obtain ⟨k1, k2, k3, k4, k5, k6, k7, k8⟩ :=
              clipBox_in_bounds img.1 img.2 b0 hW hH
            refine ⟨k1, ?_, k6, k3, ?_, k8⟩
            · have : (0 : ℚ) ≤ (clipBox img.1 img.2 b0).x2 -
                  (clipBox img.1 img.2 b0).x1 := le_trans hmin hw'
              linarith
            · have : (0 : ℚ) ≤ (clipBox img.1 img.2 b0).y2 -
                  (clipBox img.1 img.2 b0).y1 := le_trans hmin hh'
              linarith
          · simp at h
        · rw [if_neg h4] at hd
          simp at hd
  · simp only [ProposalCreator.call] at h
    rw [if_neg hb] at h
    simp at h

theorem call_output_in_bounds_witness :
    (⟨0, ⟨0, 0, 16, 16⟩⟩ : Roi).batch_ind = 0 ∧
      0 ≤ (⟨0, ⟨0, 0, 16, 16⟩⟩ : Roi).box.x1 ∧
      (⟨0, ⟨0, 0, 16, 16⟩⟩ : Roi).box.x1 ≤ (⟨0, ⟨0, 0, 16, 16⟩⟩ : Roi).box.x2 ∧
      (⟨0, ⟨0, 0, 16, 16⟩⟩ : Roi).box.x2 ≤ (20, 20).1 ∧
      0 ≤ (⟨0, ⟨0, 0, 16, 16⟩⟩ : Roi).box.y1 ∧
      (⟨0, ⟨0, 0, 16, 16⟩⟩ : Roi).box.y1 ≤ (⟨0, ⟨0, 0, 16, 16⟩⟩ : Roi).box.y2 ∧
      (⟨0, ⟨0, 0, 16, 16⟩⟩ : Roi).box.y2 ≤ (20, 20).2 :=
  call_output_in_bounds cfgDefault expOne predEx probEx anchorEx (20, 20) 1
    false [⟨0, ⟨0, 0, 16, 16⟩⟩] (by norm_num [cfgDefault]) (by norm_num)
    (by norm_num) (by with_unfolding_all rfl) ⟨0, ⟨0, 0, 16, 16⟩⟩
    (List.mem_cons_self _ _)

/-- C10 counterexample: with a negative image width, `min_size = 0 ≥ 0`, and a
proposal surviving the filter, the returned box has `x1 = -5 < 0`: the claimed
bounds fail without an added hypothesis that the image size is non-negative. -/
theorem call_negative_width_out_of_bounds :
    ProposalCreator.call cfgMin0 expOne predEx probEx anchorEx (-5, 5) 1 false
        = Except.ok [⟨0, ⟨-5, 0, -5, 5⟩⟩] ∧
      0 ≤ cfgMin0.rpn_min_size * 1 ∧ ¬(0 ≤ (-5 : ℚ)) :=
  ⟨by with_unfolding_all rfl, by norm_num [cfgMin0], by norm_num⟩
